import Mathlib

/-!
Verification of the `atomic` package of `chango/aerospike-client-go`
(`types/atomic/int.go`): a mutex-guarded integer cell (`AtomicInt`)
with atomic read / write / read-modify-write operations.

Embedding notes.  Each Go method is modelled as a pure function from the
cell state to a pair of the new state and the returned value (methods
returning nothing return just the new state).  The `sync.RWMutex` makes
every method body one indivisible critical section, so a method call is a
single atomic step of the state; the lock itself carries no externally
visible state and is not part of the model.  Go's `int` is a
two's-complement machine integer of platform width `w` whose arithmetic
wraps; we model values as `Int` and apply an explicit two's-complement
wrap at width `w` exactly where the Go source computes arithmetic
(`+=`, `++`, `--`).  Plain assignments (`=`) copy the argument, which is
already a representable `int`, so they do not wrap.
-/

namespace AerospikeAtomic

/-- Two's-complement wraparound at bit width `w`: the unique integer
congruent to `x` modulo `2 ^ w` lying in `[-2 ^ (w - 1), 2 ^ (w - 1) - 1]`
(for `w ≥ 1`). -/
def wrap (w : Nat) (x : Int) : Int :=
  (x + 2 ^ (w - 1)) % 2 ^ w - 2 ^ (w - 1)

/-- Smallest representable value of a `w`-bit signed integer. -/
def intMin (w : Nat) : Int := -(2 ^ (w - 1))

/-- Largest representable value of a `w`-bit signed integer. -/
def intMax (w : Nat) : Int := 2 ^ (w - 1) - 1

/-- `x` is representable as a `w`-bit signed integer. -/
def inRange (w : Nat) (x : Int) : Prop := intMin w ≤ x ∧ x ≤ intMax w

instance (w : Nat) (x : Int) : Decidable (inRange w x) :=
  inferInstanceAs (Decidable (_ ∧ _))

/-- The state of an `AtomicInt` cell: the single `val` field of the Go
struct.  The `sync.RWMutex` field has no externally observable state. -/
structure AtomicInt where
  val : Int
deriving DecidableEq

/-- `NewAtomicInt` generates a new AtomicInt instance holding `value`. -/
def NewAtomicInt (value : Int) : AtomicInt := ⟨value⟩

/-- `AddAndGet` atomically adds the given value to the current value and
returns the result (`ai.val += delta; return ai.val`). -/
def AtomicInt.AddAndGet (ai : AtomicInt) (w : Nat) (delta : Int) :
    AtomicInt × Int :=
  (⟨wrap w (ai.val + delta)⟩, wrap w (ai.val + delta))

/-- `CompareAndSet` atomically sets the value to `update` if the current
value equals `expect`; returns whether the expectation was met. -/
def AtomicInt.CompareAndSet (ai : AtomicInt) (expect update : Int) :
    AtomicInt × Bool :=
  if ai.val = expect then (⟨update⟩, true) else (ai, false)

/-- `DecrementAndGet` atomically decrements the current value by one and
returns the result (`ai.val--; return ai.val`). -/
def AtomicInt.DecrementAndGet (ai : AtomicInt) (w : Nat) :
    AtomicInt × Int :=
  (⟨wrap w (ai.val - 1)⟩, wrap w (ai.val - 1))

/-- `Get` atomically retrieves the current value; it only reads `ai.val`
(under the read lock), so the state component is unchanged. -/
def AtomicInt.Get (ai : AtomicInt) : AtomicInt × Int := (ai, ai.val)

/-- `GetAndAdd` atomically adds `delta` to the current value and returns
the old value. -/
def AtomicInt.GetAndAdd (ai : AtomicInt) (w : Nat) (delta : Int) :
    AtomicInt × Int :=
  (⟨wrap w (ai.val + delta)⟩, ai.val)

/-- `GetAndDecrement` atomically decrements the current value by one and
returns the old value. -/
def AtomicInt.GetAndDecrement (ai : AtomicInt) (w : Nat) :
    AtomicInt × Int :=
  (⟨wrap w (ai.val - 1)⟩, ai.val)

/-- `GetAndIncrement` atomically increments the current value by one and
returns the old value. -/
def AtomicInt.GetAndIncrement (ai : AtomicInt) (w : Nat) :
    AtomicInt × Int :=
  (⟨wrap w (ai.val + 1)⟩, ai.val)

/-- `GetAndSet` atomically sets the current value to `newValue` and
returns the old value. -/
def AtomicInt.GetAndSet (ai : AtomicInt) (newValue : Int) :
    AtomicInt × Int :=
  (⟨newValue⟩, ai.val)

/-- `IncrementAndGet` atomically increments the current value by one and
returns the result (`ai.val++; return ai.val`). -/
def AtomicInt.IncrementAndGet (ai : AtomicInt) (w : Nat) :
    AtomicInt × Int :=
  (⟨wrap w (ai.val + 1)⟩, wrap w (ai.val + 1))

/-- `Set` atomically sets the current value to `newValue`. -/
def AtomicInt.Set (ai : AtomicInt) (newValue : Int) : AtomicInt :=
  ⟨newValue⟩

/-! ### Arithmetic facts about `wrap` -/

lemma two_pow_le (w : Nat) : (2 : Int) ^ w ≤ 2 * 2 ^ (w - 1) := by
  cases w with
  | zero => norm_num
  | succ n =>
    simp only [Nat.add_sub_cancel, pow_succ]
    exact le_of_eq (mul_comm _ _)

lemma two_pow_eq (w : Nat) (hw : 1 ≤ w) : (2 : Int) ^ w = 2 * 2 ^ (w - 1) := by
  obtain ⟨n, rfl⟩ := Nat.exists_eq_add_of_le hw
  simp only [Nat.add_sub_cancel_left, Nat.add_sub_cancel]
  rw [Nat.add_comm, pow_succ]
  exact mul_comm _ _

lemma two_pow_pos (w : Nat) : (0 : Int) < 2 ^ w := by positivity

/-- `wrap w x` is congruent to `x` modulo `2 ^ w`. -/
lemma wrap_modeq (w : Nat) (x : Int) : (2 : Int) ^ w ∣ wrap w x - x := by
  unfold wrap
  have h := Int.emod_def (x + 2 ^ (w - 1)) ((2 : Int) ^ w)
  refine ⟨-((x + 2 ^ (w - 1)) / 2 ^ w), ?_⟩
  rw [h]
  ring

/-- `wrap w x` lies in the representable range of a `w`-bit signed
integer. -/
lemma wrap_range (w : Nat) (x : Int) :
    intMin w ≤ wrap w x ∧ wrap w x ≤ intMax w := by
  unfold wrap intMin intMax
  have hpos : (0 : Int) < 2 ^ w := two_pow_pos w
  have h1 : 0 ≤ (x + 2 ^ (w - 1)) % 2 ^ w := Int.emod_nonneg _ (ne_of_gt hpos)
  have h2 : (x + 2 ^ (w - 1)) % 2 ^ w < 2 ^ w := Int.emod_lt_of_pos _ hpos
  have h3 := two_pow_le w
  constructor <;> linarith

/-- On representable values, `wrap` is the identity. -/
lemma wrap_eq_self (w : Nat) (hw : 1 ≤ w) (x : Int) (h : inRange w x) :
    wrap w x = x := by
  obtain ⟨hlo, hhi⟩ := h
  unfold wrap
  unfold intMin at hlo
  unfold intMax at hhi
  have hn : (2 : Int) ^ w = 2 * 2 ^ (w - 1) := two_pow_eq w hw
  have h0 : 0 ≤ x + 2 ^ (w - 1) := by linarith
  have h1 : x + 2 ^ (w - 1) < 2 ^ w := by rw [hn]; linarith
  rw [Int.emod_eq_of_lt h0 h1]
  ring

/-- Wrapping a wrapped value shifted by `y` equals wrapping the shifted
original: `wrap` absorbs itself through addition. -/
lemma wrap_wrap_add (w : Nat) (x y : Int) :
    wrap w (wrap w x + y) = wrap w (x + y) := by
  unfold wrap
  have h := Int.emod_def (x + 2 ^ (w - 1)) ((2 : Int) ^ w)
  have key : (x + 2 ^ (w - 1)) % 2 ^ w - 2 ^ (w - 1) + y + 2 ^ (w - 1)
      = x + y + 2 ^ (w - 1) + 2 ^ w * (-((x + 2 ^ (w - 1)) / 2 ^ w)) := by
    rw [h]; ring
  rw [key, Int.add_mul_emod_self_left]

/-! ### Concurrent executions

A schedule is a list of thread identifiers; because the `sync.RWMutex`
makes each method call a single critical section, any interleaved
execution in which each of `N` threads performs `M` calls to
`IncrementAndGet` is some schedule `sched : List (Fin N)` in which every
thread identifier occurs exactly `M` times, executed sequentially. -/

/-- Execute a schedule of `IncrementAndGet` calls: the entry of the
schedule only names the calling thread, the effect on the cell is one
atomic increment per entry. -/
def runIncrements (w N : Nat) (sched : List (Fin N)) (ai : AtomicInt) :
    AtomicInt :=
  sched.foldl (fun s _ => (s.IncrementAndGet w).1) ai

lemma intMin_nonpos (w : Nat) : intMin w ≤ 0 := by
  unfold intMin
  have := two_pow_pos (w - 1)
  linarith

lemma runIncrements_val (w : Nat) (hw : 1 ≤ w) (N : Nat) :
    ∀ (sched : List (Fin N)) (v : Int), 0 ≤ v →
      inRange w (v + sched.length) →
      (runIncrements w N sched ⟨v⟩).val = v + sched.length := by
  intro sched
  induction sched with
  | nil =>
    intro v h0 hr
    simp [runIncrements]
  | cons a l ih =>
    intro v h0 hr
    have hlen : ((a :: l).length : Int) = (l.length : Int) + 1 := by
      push_cast [List.length_cons]
      ring
    have hlnn : (0 : Int) ≤ (l.length : Int) := Int.natCast_nonneg _
    obtain ⟨hlo, hhi⟩ := hr
    rw [hlen] at hhi
    have hv1 : inRange w (v + 1) := by
      constructor
      · have := intMin_nonpos w
        linarith
      · linarith
    have hstep : ((AtomicInt.mk v).IncrementAndGet w).1 = ⟨v + 1⟩ := by
      simp [AtomicInt.IncrementAndGet, wrap_eq_self w hw _ hv1]
    have hfold : runIncrements w N (a :: l) ⟨v⟩
        = runIncrements w N l (((AtomicInt.mk v).IncrementAndGet w).1) :=
      rfl
    rw [hfold, hstep, ih (v + 1) (by linarith) ⟨by linarith, by linarith⟩,
      hlen]
    ring

lemma length_of_count (N M : Nat) (sched : List (Fin N))
    (h : ∀ t, sched.count t = M) : sched.length = N * M := by
  have h2 : ∑ t ∈ sched.toFinset, sched.count t = sched.length :=
    List.sum_toFinset_count_eq_length sched
  have h3 : ∑ t ∈ sched.toFinset, sched.count t = ∑ t : Fin N, sched.count t :=
    Finset.sum_subset (Finset.subset_univ sched.toFinset)
      (fun x _ hx =>
        List.count_eq_zero.mpr (fun hmem => hx (List.mem_toFinset.mpr hmem)))
  have h4 : ∑ t : Fin N, sched.count t = N * M := by
    simp [h, Finset.sum_const, Finset.card_univ, Nat.smul_one_eq_cast]
  rw [← h2, h3, h4]

/-! ### Claim theorems -/

/-- C1: for every state value `v` and integers `expect`, `update`,
`CompareAndSet expect update` returns `true` and sets the value to
`update` when `v = expect`; when `v ≠ expect` it returns `false` and
leaves the value unchanged. -/
theorem compareAndSet_spec (v expect update : Int) :
    (v = expect →
      (AtomicInt.mk v).CompareAndSet expect update = (⟨update⟩, true)) ∧
    (v ≠ expect →
      (AtomicInt.mk v).CompareAndSet expect update = (⟨v⟩, false)) := by
  constructor
  · intro h
    simp [AtomicInt.CompareAndSet, h]
  · intro h
    simp [AtomicInt.CompareAndSet, h]

/-- Witness for C1 at `v = 5`: a successful and a failed compare-and-set. -/
theorem compareAndSet_spec_witness :
    (AtomicInt.mk 5).CompareAndSet 5 9 = (⟨9⟩, true) ∧
    (AtomicInt.mk 5).CompareAndSet 6 9 = (⟨5⟩, false) :=
  ⟨(compareAndSet_spec 5 5 9).1 rfl,
   (compareAndSet_spec 5 6 9).2 (by decide)⟩

/-- C4: `GetAndSet u` returns the value held immediately prior to the
call, and a `Get` performed afterwards returns `u`. -/
theorem getAndSet_spec (v u : Int) :
    ((AtomicInt.mk v).GetAndSet u).2 = v ∧
    (((AtomicInt.mk v).GetAndSet u).1.Get).2 = u := by
  constructor <;> rfl

/-- C5: a `Get` on a freshly constructed instance, before any mutation,
returns the initial value. -/
theorem newAtomicInt_get (initial : Int) :
    ((NewAtomicInt initial).Get).2 = initial := rfl

/-- C2: when the results are representable at the platform width `w`,
`AddAndGet d` sets the value to `v + d` and returns `v + d`,
`IncrementAndGet` sets the value to `v + 1` and returns `v + 1`, and
`DecrementAndGet` sets the value to `v - 1` and returns `v - 1`
(the new value in each case). -/
theorem mutate_and_get_return_new (w : Nat) (hw : 1 ≤ w) (v d : Int)
    (h1 : inRange w (v + d)) (h2 : inRange w (v + 1))
    (h3 : inRange w (v - 1)) :
    (AtomicInt.mk v).AddAndGet w d = (⟨v + d⟩, v + d) ∧
    (AtomicInt.mk v).IncrementAndGet w = (⟨v + 1⟩, v + 1) ∧
    (AtomicInt.mk v).DecrementAndGet w = (⟨v - 1⟩, v - 1) := by
  refine ⟨?_, ?_, ?_⟩ <;>
    simp [AtomicInt.AddAndGet, AtomicInt.IncrementAndGet,
      AtomicInt.DecrementAndGet, wrap_eq_self w hw _ h1,
      wrap_eq_self w hw _ h2, wrap_eq_self w hw _ h3]

/-- Witness for C2 at width 64, `v = 5`, `d = 3`. -/
theorem mutate_and_get_return_new_witness :
    (AtomicInt.mk 5).AddAndGet 64 3 = (⟨8⟩, 8) ∧
    (AtomicInt.mk 5).IncrementAndGet 64 = (⟨6⟩, 6) ∧
    (AtomicInt.mk 5).DecrementAndGet 64 = (⟨4⟩, 4) :=
  mutate_and_get_return_new 64 (by decide) 5 3
    (by decide) (by decide) (by decide)

/-- C3: when the results are representable at the platform width `w`,
`GetAndAdd d` returns the old value `v` and sets the value to `v + d`,
`GetAndIncrement` returns `v` and sets the value to `v + 1`, and
`GetAndDecrement` returns `v` and sets the value to `v - 1`. -/
theorem get_and_mutate_return_old (w : Nat) (hw : 1 ≤ w) (v d : Int)
    (h1 : inRange w (v + d)) (h2 : inRange w (v + 1))
    (h3 : inRange w (v - 1)) :
    (AtomicInt.mk v).GetAndAdd w d = (⟨v + d⟩, v) ∧
    (AtomicInt.mk v).GetAndIncrement w = (⟨v + 1⟩, v) ∧
    (AtomicInt.mk v).GetAndDecrement w = (⟨v - 1⟩, v) := by
  refine ⟨?_, ?_, ?_⟩ <;>
    simp [AtomicInt.GetAndAdd, AtomicInt.GetAndIncrement,
      AtomicInt.GetAndDecrement, wrap_eq_self w hw _ h1,
      wrap_eq_self w hw _ h2, wrap_eq_self w hw _ h3]

/-- Witness for C3 at width 64, `v = 5`, `d = 3`. -/
theorem get_and_mutate_return_old_witness :
    (AtomicInt.mk 5).GetAndAdd 64 3 = (⟨8⟩, 5) ∧
    (AtomicInt.mk 5).GetAndIncrement 64 = (⟨6⟩, 5) ∧
    (AtomicInt.mk 5).GetAndDecrement 64 = (⟨4⟩, 5) :=
  get_and_mutate_return_old 64 (by decide) 5 3
    (by decide) (by decide) (by decide)

/-- C6: for a representable state value `v`, an `IncrementAndGet`
followed immediately by a `DecrementAndGet` makes the decrement return
the original value `v`, and the resulting state value equals `v` (the
pair of operations is the identity on the state, even when the
increment itself overflows and wraps). -/
theorem increment_then_decrement_id (w : Nat) (hw : 1 ≤ w) (v : Int)
    (h : inRange w v) :
    ((((AtomicInt.mk v).IncrementAndGet w).1).DecrementAndGet w).2 = v ∧
    ((((AtomicInt.mk v).IncrementAndGet w).1).DecrementAndGet w).1.val
      = v := by
  have key : wrap w (wrap w (v + 1) + -1) = v := by
    rw [wrap_wrap_add]
    have hv : v + 1 + -1 = v := by ring
    rw [hv]
    exact wrap_eq_self w hw v h
  constructor <;>
    simpa [AtomicInt.IncrementAndGet, AtomicInt.DecrementAndGet,
      sub_eq_add_neg] using key

/-- Witness for C6 at width 64, `v = 5`. -/
theorem increment_then_decrement_id_witness :
    ((((AtomicInt.mk 5).IncrementAndGet 64).1).DecrementAndGet 64).2 = 5 ∧
    ((((AtomicInt.mk 5).IncrementAndGet 64).1).DecrementAndGet 64).1.val
      = 5 :=
  increment_then_decrement_id 64 (by decide) 5 (by decide)

/-- C7: the concrete single-threaded scenario at width 64.  Starting from
`NewAtomicInt 5`: `AddAndGet 3` returns 8; `CompareAndSet 8 10` returns
`true` and a `Get` then returns 10; `CompareAndSet 8 99` returns `false`
and a `Get` then returns 10; `GetAndIncrement` returns 10 and a final
`Get` returns 11. -/
theorem scenario_new5 :
    ((NewAtomicInt 5).AddAndGet 64 3).2 = 8 ∧
    (((NewAtomicInt 5).AddAndGet 64 3).1.CompareAndSet 8 10).2 = true ∧
    ((((NewAtomicInt 5).AddAndGet 64 3).1.CompareAndSet 8 10).1.Get).2
      = 10 ∧
    (((((NewAtomicInt 5).AddAndGet 64 3).1.CompareAndSet 8
        10).1.Get).1.CompareAndSet 8 99).2 = false ∧
    ((((((NewAtomicInt 5).AddAndGet 64 3).1.CompareAndSet 8
        10).1.Get).1.CompareAndSet 8 99).1.Get).2 = 10 ∧
    (((((((NewAtomicInt 5).AddAndGet 64 3).1.CompareAndSet 8
        10).1.Get).1.CompareAndSet 8 99).1.Get).1.GetAndIncrement 64).2
      = 10 ∧
    ((((((((NewAtomicInt 5).AddAndGet 64 3).1.CompareAndSet 8
        10).1.Get).1.CompareAndSet 8 99).1.Get).1.GetAndIncrement
        64).1.Get).2 = 11 := by
  decide

/-- C8: operations have no effect beyond the stored value.  `Get` leaves
the state (hence the value) unchanged and returns it, and any two states
with equal `val` are indistinguishable under every operation: the entire
observable behaviour of each operation is its return value together with
its update of the single `val` field. -/
theorem operations_frame (s t : AtomicInt) (w : Nat) (d e u : Int)
    (h : t.val = s.val) :
    s.Get = (s, s.val) ∧
    t.Get = s.Get ∧
    t.AddAndGet w d = s.AddAndGet w d ∧
    t.CompareAndSet e u = s.CompareAndSet e u ∧
    t.GetAndSet u = s.GetAndSet u ∧
    t.Set u = s.Set u ∧
    t.IncrementAndGet w = s.IncrementAndGet w ∧
    t.DecrementAndGet w = s.DecrementAndGet w ∧
    t.GetAndAdd w d = s.GetAndAdd w d ∧
    t.GetAndIncrement w = s.GetAndIncrement w ∧
    t.GetAndDecrement w = s.GetAndDecrement w := by
  have hts : t = s := by
    cases s
    cases t
    simpa using h
  subst hts
  exact ⟨rfl, rfl, rfl, rfl, rfl, rfl, rfl, rfl, rfl, rfl, rfl⟩

/-- Witness for C8 at `s = t = ⟨7⟩`, width 64. -/
theorem operations_frame_witness :
    (AtomicInt.mk 7).Get = (AtomicInt.mk 7, 7) ∧
    (AtomicInt.mk 7).Get = (AtomicInt.mk 7).Get ∧
    (AtomicInt.mk 7).AddAndGet 64 1 = (AtomicInt.mk 7).AddAndGet 64 1 ∧
    (AtomicInt.mk 7).CompareAndSet 2 3 = (AtomicInt.mk 7).CompareAndSet 2 3 ∧
    (AtomicInt.mk 7).GetAndSet 3 = (AtomicInt.mk 7).GetAndSet 3 ∧
    (AtomicInt.mk 7).Set 3 = (AtomicInt.mk 7).Set 3 ∧
    (AtomicInt.mk 7).IncrementAndGet 64 = (AtomicInt.mk 7).IncrementAndGet 64 ∧
    (AtomicInt.mk 7).DecrementAndGet 64 = (AtomicInt.mk 7).DecrementAndGet 64 ∧
    (AtomicInt.mk 7).GetAndAdd 64 1 = (AtomicInt.mk 7).GetAndAdd 64 1 ∧
    (AtomicInt.mk 7).GetAndIncrement 64 = (AtomicInt.mk 7).GetAndIncrement 64 ∧
    (AtomicInt.mk 7).GetAndDecrement 64 = (AtomicInt.mk 7).GetAndDecrement 64 :=
  operations_frame ⟨7⟩ ⟨7⟩ 64 1 2 3 rfl

/-- C9: starting from a cell holding 0, for any interleaving (schedule)
in which each of the `N` threads performs exactly `M` calls to
`IncrementAndGet`, a final `Get` returns exactly `N * M` — no lost
updates — provided `N * M` is representable at the platform width. -/
theorem concurrent_increments (w N M : Nat) (hw : 1 ≤ w)
    (hN : 0 < N) (hM : 0 < M) (sched : List (Fin N))
    (hsched : ∀ t, sched.count t = M)
    (hr : inRange w ((N * M : Nat) : Int)) :
    ((runIncrements w N sched (NewAtomicInt 0)).Get).2
      = ((N * M : Nat) : Int) := by
  have hlen : sched.length = N * M := length_of_count N M sched hsched
  have hval := runIncrements_val w hw N sched 0 le_rfl
    (by rw [hlen]; simpa using hr)
  have hget : ((runIncrements w N sched (NewAtomicInt 0)).Get).2
      = (runIncrements w N sched (NewAtomicInt 0)).val := rfl
  rw [hget]
  have hnew : NewAtomicInt 0 = AtomicInt.mk 0 := rfl
  rw [hnew, hval, hlen]
  simp

/-- Witness for C9: two threads, one increment each, at width 64. -/
theorem concurrent_increments_witness :
    ((runIncrements 64 2 [0, 1] (NewAtomicInt 0)).Get).2
      = ((2 * 1 : Nat) : Int) :=
  concurrent_increments 64 2 1 (by decide) (by decide) (by decide)
    [0, 1] (by decide) (by decide)

/-- C10: the arithmetic of `AddAndGet`, `GetAndAdd`, `IncrementAndGet`,
`GetAndIncrement`, `DecrementAndGet` and `GetAndDecrement` wraps modulo
`2 ^ w` in two's complement at the platform width `w`: the stored result
is congruent to the exact result (`v + d`, `v + 1`, or `v - 1`) modulo
`2 ^ w` and lies in the representable range — never a saturation or a
fault. -/
theorem arithmetic_wraps (w : Nat) (v d : Int) :
    ((2 : Int) ^ w ∣ ((AtomicInt.mk v).AddAndGet w d).1.val - (v + d) ∧
      inRange w ((AtomicInt.mk v).AddAndGet w d).1.val) ∧
    ((2 : Int) ^ w ∣ ((AtomicInt.mk v).GetAndAdd w d).1.val - (v + d) ∧
      inRange w ((AtomicInt.mk v).GetAndAdd w d).1.val) ∧
    ((2 : Int) ^ w ∣ ((AtomicInt.mk v).IncrementAndGet w).1.val - (v + 1) ∧
      inRange w ((AtomicInt.mk v).IncrementAndGet w).1.val) ∧
    ((2 : Int) ^ w ∣ ((AtomicInt.mk v).GetAndIncrement w).1.val - (v + 1) ∧
      inRange w ((AtomicInt.mk v).GetAndIncrement w).1.val) ∧
    ((2 : Int) ^ w ∣ ((AtomicInt.mk v).DecrementAndGet w).1.val - (v - 1) ∧
      inRange w ((AtomicInt.mk v).DecrementAndGet w).1.val) ∧
    ((2 : Int) ^ w ∣ ((AtomicInt.mk v).GetAndDecrement w).1.val - (v - 1) ∧
      inRange w ((AtomicInt.mk v).GetAndDecrement w).1.val) :=
  ⟨⟨wrap_modeq w _, wrap_range w _⟩, ⟨wrap_modeq w _, wrap_range w _⟩,
   ⟨wrap_modeq w _, wrap_range w _⟩, ⟨wrap_modeq w _, wrap_range w _⟩,
   ⟨wrap_modeq w _, wrap_range w _⟩, ⟨wrap_modeq w _, wrap_range w _⟩⟩

end AerospikeAtomic
